import Mathlib

/-!
Verification of the `ai_cost_tracker` Python package against its design
specification.  The code is embedded shallowly: Python strings become
`List Char`, Python floats become `ℚ` (exact rational arithmetic), raised
exceptions become `Except CostError`, and the SQLite-backed storage engine
becomes explicit state passing over a `DBState` record.  Definitions mirror
`ai_cost_tracker/pricing.py`, `ai_cost_tracker/storage.py`,
`ai_cost_tracker/models.py` and `ai_cost_tracker/tracker.py`.
-/

/-- Convert a Lean string literal to the character-list representation used
throughout the embedding. -/
def s2c (s : String) : List Char := s.data

/-- Characters stripped by Python `str.strip()` (restricted to ASCII, which
covers every model identifier in the pricing table). -/
def isPySpace (c : Char) : Bool :=
  c = ' ' || c = '\t' || c = '\n' || c = '\r' || c = '\x0b' || c = '\x0c'

/-- Python `str.lower()` on one character (ASCII range). -/
def pyLower (c : Char) : Char :=
  if 'A' ≤ c ∧ c ≤ 'Z' then Char.ofNat (c.toNat + 32) else c

/-- Python `str.replace("_", "-")` on one character. -/
def underscoreToHyphen (c : Char) : Char := if c = '_' then '-' else c

/-- Python `str.strip()`: drop leading and trailing whitespace. -/
def pyStrip (l : List Char) : List Char :=
  ((l.dropWhile isPySpace).reverse.dropWhile isPySpace).reverse

/-- Embeds `_normalize_model_name` from `pricing.py`:
`model.strip().lower().replace("_", "-")`. -/
def normalize_model_name (model : List Char) : List Char :=
  ((pyStrip model).map pyLower).map underscoreToHyphen

/-- Python `b.startswith(a)` for character lists: `a` is an initial segment
of `b`. -/
def isPre : List Char → List Char → Bool
  | [], _ => true
  | _ :: _, [] => false
  | a :: as, b :: bs => a = b && isPre as bs

/-- Python `a in b` for character lists: `a` occurs contiguously in `b`. -/
def isSub (a : List Char) : List Char → Bool
  | [] => isPre a []
  | b :: bs => isPre a (b :: bs) || isSub a bs

/-- Embeds the `PRICING` table from `pricing.py`: USD per 1M tokens, as
`(input, output)` pairs. -/
def PRICING : List (List Char × ℚ × ℚ) :=
  [ (s2c "gpt-4", 30, 60),
    (s2c "gpt-4-turbo", 10, 30),
    (s2c "gpt-4o", 5, 15),
    (s2c "gpt-4o-mini", 0.15, 0.6),
    (s2c "gpt-3.5-turbo", 0.5, 1.5),
    (s2c "claude-opus-4", 15, 75),
    (s2c "claude-sonnet-4", 3, 15),
    (s2c "claude-sonnet-3.5", 3, 15),
    (s2c "claude-haiku-3.5", 0.8, 4) ]

/-- Embeds the `_ALIASES` table from `pricing.py`. -/
def ALIASES : List (List Char × List Char) :=
  [ (s2c "claude-3-5-sonnet", s2c "claude-sonnet-3.5"),
    (s2c "claude-3-5-haiku", s2c "claude-haiku-3.5"),
    (s2c "claude-3-opus", s2c "claude-opus-4") ]

/-- Dictionary lookup `PRICING[key]` / `key in PRICING` on the association
list. -/
def plookup (key : List Char) : List (List Char × ℚ × ℚ) → Option (ℚ × ℚ)
  | [] => none
  | p :: ps => if p.1 = key then some p.2 else plookup key ps

/-- Embeds `sorted(PRICING.keys(), key=len, reverse=True)`: canonical keys by
descending length, ties in table order (Python sort is stable, and so is
`List.insertionSort` with this relation). -/
def keys_by_specificity : List (List Char) :=
  List.insertionSort (fun a b => b.length ≤ a.length) (PRICING.map Prod.fst)

/-- Embeds `_resolve_model_key` from `pricing.py`; `none` models the raised
`ValueError` (`UnsupportedModel`). -/
def resolve_model_key (model : List Char) : Option (List Char) :=
  let n := normalize_model_name model
  if (plookup n PRICING).isSome then some n
  else
    match ALIASES.find? (fun p => isPre p.1 n) with
    | some p => some p.2
    | none => keys_by_specificity.find? (fun k => isPre k n || isSub k n)

/-- Error taxonomy of the spec: `UnsupportedModel` for a failed pricing
resolution, `InvalidTokenCount` for negative counts. -/
inductive CostError where
  | unsupportedModel
  | invalidTokenCount
deriving DecidableEq

/-- Embeds `get_model_pricing` from `pricing.py`. -/
def get_model_pricing (model : List Char) : Except CostError (ℚ × ℚ) :=
  match resolve_model_key model with
  | some k =>
    match plookup k PRICING with
    | some r => .ok r
    | none => .error .unsupportedModel
  | none => .error .unsupportedModel

/-- Embeds `calculate_cost` from `pricing.py`. -/
def calculate_cost (model : List Char) (tokens_in tokens_out : Int) :
    Except CostError ℚ :=
  if tokens_in < 0 || tokens_out < 0 then .error .invalidTokenCount
  else
    match get_model_pricing model with
    | .ok r =>
      .ok ((tokens_in : ℚ) / 1000000 * r.1 + (tokens_out : ℚ) / 1000000 * r.2)
    | .error e => .error e

/-- Metadata: a JSON object, modelled as an association list of string keys
and (serialized) string values. -/
def Meta := List (List Char × List Char)

instance : DecidableEq Meta := by unfold Meta; infer_instance

/-- Embeds the `CostLog` dataclass from `models.py` (the timestamp is kept in
its serialized ISO-8601 form, which is what the storage layer persists and
compares). -/
structure CostLog where
  user_id : List Char
  feature : List Char
  model : List Char
  tokens_in : Int
  tokens_out : Int
  cost_usd : ℚ
  latency_ms : Int
  timestamp : List Char
  org_id : List Char
  metadata : Meta
deriving DecidableEq

/-- One persisted row of the `cost_logs` table: the `AUTOINCREMENT` surrogate
key plus the inserted record. -/
structure Row where
  id : Nat
  entry : CostLog
deriving DecidableEq

/-- State of one `SQLiteStorage` instance: whether the schema exists, the next
`AUTOINCREMENT` id, and the persisted rows in insertion order. -/
structure DBState where
  ready : Bool
  nextId : Nat
  rows : List Row
deriving DecidableEq

/-- Embeds `SQLiteStorage._init_db`: `CREATE TABLE IF NOT EXISTS` (plus
`CREATE INDEX IF NOT EXISTS`) — a no-op on an already-initialized store. -/
def init_db (s : DBState) : DBState :=
  if s.ready then s else { ready := true, nextId := 1, rows := [] }

namespace SQLiteStorage

/-- Embeds `SQLiteStorage.log`: `INSERT INTO cost_logs ...` appends one row
with the next surrogate id. -/
def log (s : DBState) (e : CostLog) : DBState :=
  { s with rows := s.rows ++ [⟨s.nextId, e⟩], nextId := s.nextId + 1 }

end SQLiteStorage

/-- SQLite text comparison (`memcmp` order; code-point order on this ASCII
domain): `leChars a b` means `a <= b`. -/
def leChars : List Char → List Char → Bool
  | [], _ => true
  | _ :: _, [] => false
  | a :: as, b :: bs => if a = b then leChars as bs else decide (a < b)

/-- The optional filters accepted by the aggregate queries (the keys read by
`_build_where_clause`). -/
structure Filters where
  user_id : Option (List Char) := none
  feature : Option (List Char) := none
  org_id : Option (List Char) := none
  model : Option (List Char) := none
  start_time : Option (List Char) := none
  end_time : Option (List Char) := none
deriving DecidableEq

/-- One optional `WHERE` clause: present exactly when the filter value is
supplied (`is not None`). -/
def optClause (v : Option (List Char)) (pred : List Char → Row → Bool) :
    List (Row → Bool) :=
  match v with
  | none => []
  | some x => [pred x]

/-- Embeds `SQLiteStorage._build_where_clause`: the list of predicates joined
by `AND`, in the order the code emits them. -/
def build_where_clause (f : Filters) : List (Row → Bool) :=
  optClause f.user_id (fun v r => decide (r.entry.user_id = v)) ++
  optClause f.feature (fun v r => decide (r.entry.feature = v)) ++
  optClause f.org_id (fun v r => decide (r.entry.org_id = v)) ++
  optClause f.model (fun v r => decide (r.entry.model = v)) ++
  optClause f.start_time (fun v r => leChars v r.entry.timestamp) ++
  optClause f.end_time (fun v r => leChars r.entry.timestamp v)

/-- A row satisfies the generated `WHERE` clause (an empty clause list — no
filters — matches every row). -/
def rowMatches (f : Filters) (r : Row) : Bool :=
  (build_where_clause f).all (fun c => c r)

/-- The rows selected by `WHERE`-filtered queries. -/
def matchingRows (s : DBState) (f : Filters) : List Row :=
  s.rows.filter (rowMatches f)

/-- SQL `SUM(cost_usd)` over a list of rows (`COALESCE(..., 0.0)`: the empty
sum is 0). -/
def sumCost (l : List Row) : ℚ := l.foldr (fun r acc => r.entry.cost_usd + acc) 0

namespace SQLiteStorage

/-- Embeds `SQLiteStorage.get_total_cost`. -/
def get_total_cost (s : DBState) (f : Filters) : ℚ := sumCost (matchingRows s f)

end SQLiteStorage

/-- Distinct group keys in order of first appearance (accumulator of keys
already emitted). -/
def dedupAux (seen : List (List Char)) : List (List Char) → List (List Char)
  | [] => []
  | x :: xs => if x ∈ seen then dedupAux seen xs else x :: dedupAux (x :: seen) xs

/-- Distinct group keys in order of first appearance. -/
def dedupF (l : List (List Char)) : List (List Char) := dedupAux [] l

/-- SQL `GROUP BY`: one aggregate triple `(key, SUM(cost_usd), COUNT(*))` per
distinct key of the given rows. -/
def groupRows (proj : CostLog → List Char) (rows : List Row) :
    List (List Char × ℚ × Nat) :=
  (dedupF (rows.map (fun r => proj r.entry))).map (fun k =>
    (k, sumCost (rows.filter (fun r => decide (proj r.entry = k))),
     (rows.filter (fun r => decide (proj r.entry = k))).length))

/-- SQL `SELECT key, SUM(cost_usd), COUNT(*) ... GROUP BY key ORDER BY total
DESC LIMIT ?`: group the matching rows by the projection, aggregate each
group, order by descending summed cost, truncate. -/
def topBy (proj : CostLog → List Char) (s : DBState) (limit : Nat)
    (f : Filters) : List (List Char × ℚ × Nat) :=
  (List.insertionSort (fun a b => b.2.1 ≤ a.2.1)
    (groupRows proj (matchingRows s f))).take limit

namespace SQLiteStorage

/-- Embeds `SQLiteStorage.get_top_users`. -/
def get_top_users (s : DBState) (limit : Nat) (f : Filters) :
    List (List Char × ℚ × Nat) :=
  topBy CostLog.user_id s limit f

/-- Embeds `SQLiteStorage.get_top_features`. -/
def get_top_features (s : DBState) (limit : Nat) (f : Filters) :
    List (List Char × ℚ × Nat) :=
  topBy CostLog.feature s limit f

end SQLiteStorage

/-- The storage engine's public operations (one insert, three aggregate
reads). -/
inductive StorageOp where
  | append (e : CostLog)
  | readTotal (f : Filters)
  | readTopUsers (limit : Nat) (f : Filters)
  | readTopFeatures (limit : Nat) (f : Filters)

/-- State transition of one operation: `log` inserts, the `SELECT`-backed
reads leave the store unchanged. -/
def applyOp (s : DBState) : StorageOp → DBState
  | .append e => SQLiteStorage.log s e
  | .readTotal _ => s
  | .readTopUsers _ _ => s
  | .readTopFeatures _ _ => s

/-- Run a sequence of storage operations. -/
def runOps (s : DBState) : List StorageOp → DBState
  | [] => s
  | op :: ops => runOps (applyOp s op) ops

/-- Process-wide tracker state from `tracker.py`: the `_storage` instance and
the `_org_id` default. -/
structure TrackerState where
  db : DBState
  org_id : List Char

/-- Embeds `init_tracker`: fresh storage (schema created) plus the default
organization id. -/
def init_tracker (org : List Char) : TrackerState :=
  { db := init_db { ready := false, nextId := 0, rows := [] }, org_id := org }

/-- Python `x or default` for an optional string: `None` and `""` are falsy. -/
def pyOrStr (v : Option (List Char)) (d : List Char) : List Char :=
  match v with
  | none => d
  | some s => if s.isEmpty then d else s

/-- Python `metadata or {}`: `None` and the empty dict are falsy. -/
def pyOrMeta (v : Option Meta) (d : Meta) : Meta :=
  match v with
  | none => d
  | some m => if m.isEmpty then d else m

/-- Embeds `track_manual` from `tracker.py`.  `now` stands for
`datetime.now(timezone.utc).isoformat()`; the pair returns the result together
with the (possibly updated) global state. -/
def track_manual (st : TrackerState) (user feature model : List Char)
    (tokens_in tokens_out latency_ms : Int) (metadata : Option Meta)
    (org : Option (List Char)) (now : List Char) :
    Except CostError CostLog × TrackerState :=
  if tokens_in < 0 || tokens_out < 0 then (.error .invalidTokenCount, st)
  else if latency_ms < 0 then (.error .invalidTokenCount, st)
  else
    match calculate_cost model tokens_in tokens_out with
    | .error e => (.error e, st)
    | .ok cost =>
      let entry : CostLog :=
        { user_id := user, feature := feature, model := model,
          tokens_in := tokens_in, tokens_out := tokens_out, cost_usd := cost,
          latency_ms := latency_ms, timestamp := now,
          org_id := pyOrStr org st.org_id,
          metadata := pyOrMeta metadata [] }
      (.ok entry, { st with db := SQLiteStorage.log st.db entry })

/-! ### Character classes used by the suffix-resolution proof -/

/-- The characters a version/date suffix is made of (digits, dot, hyphen —
e.g. `-0125`, `-2024-05-13`, `-3.5`). -/
def versionChars : List Char := s2c "0123456789.-"

/-- Membership in the version/date character set. -/
def isVersionChar (c : Char) : Bool := versionChars.contains c

/-- A character left unchanged by `_normalize_model_name`: not whitespace, not
uppercase, not an underscore. -/
def isTame (c : Char) : Bool :=
  !isPySpace c && decide (pyLower c = c) && decide (underscoreToHyphen c = c)

theorem version_tame {c : Char} (h : isVersionChar c = true) : isTame c = true := by
  have hm : c ∈ versionChars := by
    simpa [isVersionChar, List.contains_eq_any_beq, List.any_eq_true] using h
  fin_cases hm <;> decide

/-! ### Normalization is the identity on tame strings -/

theorem dropWhile_of_all_false {p : Char → Bool} {l : List Char}
    (h : ∀ c ∈ l, p c = false) : l.dropWhile p = l := by
  cases l with
  | nil => rfl
  | cons a l => simp [List.dropWhile_cons, h a (List.mem_cons_self a l)]

theorem map_id_of_all {f : Char → Char} {l : List Char}
    (h : ∀ c ∈ l, f c = c) : l.map f = l := by
  induction l with
  | nil => rfl
  | cons a l ih =>
    simp only [List.map_cons, h a (List.mem_cons_self a l)]
    rw [ih (fun c hc => h c (List.mem_cons_of_mem a hc))]

theorem normalize_of_tame {l : List Char} (h : l.all isTame = true) :
    normalize_model_name l = l := by
  have hs : ∀ c ∈ l, isPySpace c = false := by
    intro c hc
    have := List.all_eq_true.mp h c hc
    simp [isTame] at this
    exact this.1.1
  have hl : ∀ c ∈ l, pyLower c = c := by
    intro c hc
    have := List.all_eq_true.mp h c hc
    simp [isTame] at this
    exact this.1.2
  have hu : ∀ c ∈ l, underscoreToHyphen c = c := by
    intro c hc
    have := List.all_eq_true.mp h c hc
    simp [isTame] at this
    exact this.2
  have hstrip : pyStrip l = l := by
    unfold pyStrip
    rw [dropWhile_of_all_false hs]
    rw [dropWhile_of_all_false (fun c hc => hs c (List.mem_reverse.mp hc))]
    exact List.reverse_reverse l
  unfold normalize_model_name
  rw [hstrip, map_id_of_all hl, map_id_of_all hu]

/-! ### Prefix and substring facts -/

theorem isPre_append_self (k s : List Char) : isPre k (k ++ s) = true := by
  induction k with
  | nil => rfl
  | cons a k ih => simp [isPre, ih]

theorem isPre_of_append {a : List Char} (k : List Char) {s : List Char}
    (h : isPre a (k ++ s) = true) :
    isPre a k = true ∨ (isPre k a = true ∧ isPre (a.drop k.length) s = true) := by
  induction k generalizing a with
  | nil =>
    right
    refine ⟨by cases a <;> rfl, ?_⟩
    simpa using h
  | cons c k2 ih =>
    cases a with
    | nil => left; rfl
    | cons c2 a2 =>
      simp only [List.cons_append, isPre, Bool.and_eq_true, decide_eq_true_eq] at h
      obtain ⟨rfl, h2⟩ := h
      rcases ih h2 with h3 | ⟨h3, h4⟩
      · left; simp [isPre, h3]
      · right
        refine ⟨by simp [isPre, h3], ?_⟩
        simpa using h4

theorem all_of_isPre {a b : List Char} {p : Char → Bool}
    (h : isPre a b = true) (hb : b.all p = true) : a.all p = true := by
  induction b generalizing a with
  | nil => cases a with
    | nil => rfl
    | cons c a2 => simp [isPre] at h
  | cons c b2 ih =>
    cases a with
    | nil => rfl
    | cons c2 a2 =>
      simp only [isPre, Bool.and_eq_true, decide_eq_true_eq] at h
      obtain ⟨rfl, h2⟩ := h
      simp only [List.all_cons, Bool.and_eq_true] at hb ⊢
      exact ⟨hb.1, ih h2 hb.2⟩

theorem isSub_of_append (k : List Char) {a s : List Char}
    (h : isSub a (k ++ s) = true) :
    (∃ p, p ≤ k.length ∧ isPre a (k.drop p ++ s) = true) ∨ isSub a s = true := by
  induction k with
  | nil => right; simpa using h
  | cons c k2 ih =>
    simp only [List.cons_append, isSub, Bool.or_eq_true] at h
    rcases h with h | h
    · exact Or.inl ⟨0, Nat.zero_le _, by simpa using h⟩
    · rcases ih h with ⟨p, hp, hpre⟩ | h2
      · exact Or.inl ⟨p + 1, Nat.succ_le_succ hp, by simpa using hpre⟩
      · exact Or.inr h2

theorem all_of_isSub {a b : List Char} {p : Char → Bool}
    (h : isSub a b = true) (hb : b.all p = true) : a.all p = true := by
  induction b with
  | nil =>
    cases a with
    | nil => rfl
    | cons c a2 => simp [isSub, isPre] at h
  | cons c b2 ih =>
    simp only [isSub, Bool.or_eq_true] at h
    rcases h with h | h
    · exact all_of_isPre h hb
    · exact ih h (by
        simp only [List.all_cons, Bool.and_eq_true] at hb
        exact hb.2)

/-- Decidable sufficient condition: the key `a` (which contains at least one
non-version character) can occur neither as a leading segment nor anywhere
inside `k ++ s`, for any version/date suffix `s`. -/
def cannotHit (a k : List Char) : Bool :=
  (!(a.all isVersionChar)) &&
  ((List.range (k.length + 1)).all (fun p =>
    !isPre a (k.drop p) &&
    (!isPre (k.drop p) a || !((a.drop (k.length - p)).all isVersionChar))))

theorem cannotHit_sound {a k : List Char} (h : cannotHit a k = true)
    {s : List Char} (hs : s.all isVersionChar = true) :
    isPre a (k ++ s) = false ∧ isSub a (k ++ s) = false := by
  simp only [cannotHit, Bool.and_eq_true, List.all_eq_true, List.mem_range,
    Bool.not_eq_true', Bool.or_eq_true, Bool.not_eq_true] at h
  obtain ⟨h1, h2⟩ := h
  have hp : ∀ p, p ≤ k.length → isPre a (k.drop p ++ s) = false := by
    intro p hple
    by_contra hcon
    have hcon2 : isPre a (k.drop p ++ s) = true := by
      cases hh : isPre a (k.drop p ++ s) with
      | true => rfl
      | false => exact absurd hh hcon
    rcases isPre_of_append (k.drop p) hcon2 with h3 | ⟨h3, h4⟩
    · have := (h2 p (Nat.lt_succ_of_le hple)).1
      rw [this] at h3
      exact Bool.false_ne_true h3
    · have hall : (a.drop (k.drop p).length).all isVersionChar = true :=
        all_of_isPre h4 hs
      rw [List.length_drop] at hall
      rcases (h2 p (Nat.lt_succ_of_le hple)).2 with h5 | h5
      · rw [h5] at h3; exact Bool.false_ne_true h3
      · rw [h5] at hall; exact Bool.false_ne_true hall
  constructor
  · have := hp 0 (Nat.zero_le _)
    simpa using this
  · by_contra hcon
    have hcon2 : isSub a (k ++ s) = true := by
      cases hh : isSub a (k ++ s) with
      | true => rfl
      | false => exact absurd hh hcon
    rcases isSub_of_append k hcon2 with ⟨p, hple, hpre⟩ | h3
    · rw [hp p hple] at hpre; exact Bool.false_ne_true hpre
    · have := all_of_isSub h3 hs
      rw [h1] at this; exact Bool.false_ne_true this

/-! ### Auxiliary lookup and search lemmas -/

theorem plookup_eq_none {key : List Char} {L : List (List Char × ℚ × ℚ)}
    (h : ∀ p ∈ L, p.1 ≠ key) : plookup key L = none := by
  induction L with
  | nil => rfl
  | cons p ps ih =>
    simp only [plookup]
    rw [if_neg (h p (List.mem_cons_self p ps))]
    exact ih (fun q hq => h q (List.mem_cons_of_mem p hq))

theorem find?_append_of_false {α : Type} (p : α → Bool) (L1 L2 : List α)
    (h : ∀ x ∈ L1, p x = false) : (L1 ++ L2).find? p = L2.find? p := by
  induction L1 with
  | nil => rfl
  | cons a l ih =>
    simp only [List.cons_append, List.find?]
    rw [h a (List.mem_cons_self a l)]
    exact ih (fun x hx => h x (List.mem_cons_of_mem a hx))

theorem append_eq_self_nil {k s : List Char} (h : k ++ s = k) : s = [] := by
  have := congrArg List.length h
  simp only [List.length_append] at this
  have hz : s.length = 0 := by omega
  exact List.length_eq_zero.mp hz

/-! ### Resolution of a canonical key with a version/date suffix -/

theorem resolve_append_version (k : List Char) (r : ℚ × ℚ)
    (L1 L2 : List (List Char))
    (hk : plookup k PRICING = some r)
    (htame : k.all isTame = true)
    (hexact : ∀ p ∈ PRICING,
      p.1 = k ∨ isPre k p.1 = false ∨ (p.1.drop k.length).all isVersionChar = false)
    (halias : ∀ p ∈ ALIASES, cannotHit p.1 k = true)
    (hsplit : keys_by_specificity = L1 ++ k :: L2)
    (hbefore : ∀ k2 ∈ L1, cannotHit k2 k = true)
    (s : List Char) (hs : s.all isVersionChar = true) :
    get_model_pricing (k ++ s) = .ok r := by
  have hstame : s.all isTame = true := by
    rw [List.all_eq_true] at hs ⊢
    exact fun c hc => version_tame (hs c hc)
  have hnorm : normalize_model_name (k ++ s) = k ++ s := by
    apply normalize_of_tame
    rw [List.all_append, htame, hstame]
    rfl
  by_cases hse : s = []
  · subst hse
    simp only [List.append_nil] at hnorm ⊢
    simp [get_model_pricing, resolve_model_key, hnorm, hk]
  · have hlook : plookup (k ++ s) PRICING = none := by
      apply plookup_eq_none
      intro p hp heq
      rcases hexact p hp with h1 | h1 | h1
      · rw [h1] at heq
        exact hse (append_eq_self_nil heq.symm)
      · rw [heq] at h1
        rw [isPre_append_self] at h1
        exact Bool.true_eq_false.mp h1
      · rw [heq] at h1
        rw [List.drop_left] at h1
        rw [hs] at h1
        exact Bool.true_eq_false.mp h1
    have halias2 : ALIASES.find? (fun p => isPre p.1 (k ++ s)) = none := by
      rw [List.find?_eq_none]
      intro p hp hcon
      rw [(cannotHit_sound (halias p hp) hs).1] at hcon
      exact Bool.false_ne_true hcon
    have hfuzzy :
        keys_by_specificity.find? (fun k2 => isPre k2 (k ++ s) || isSub k2 (k ++ s)) =
          some k := by
      rw [hsplit]
      rw [find?_append_of_false _ L1 _ (by
        intro k2 hk2
        have hh := cannotHit_sound (hbefore k2 hk2) hs
        rw [hh.1, hh.2]
        rfl)]
      simp only [List.find?]
      rw [isPre_append_self]
      rfl
    simp only [get_model_pricing, resolve_model_key, hnorm, hlook, Option.isSome_none,
      Bool.false_eq_true, if_false, halias2, hfuzzy, hk]

/-- C2: for every canonical pricing-table key and every version/date suffix
(a string of digits, dots and hyphens, as in `-0125`, `-2024-05-13`),
resolving the suffixed key returns exactly that key's rate pair. -/
theorem resolve_version_date_suffix (k : List Char) (r : ℚ × ℚ)
    (hk : (k, r) ∈ PRICING) (s : List Char)
    (hs : s.all isVersionChar = true) :
    get_model_pricing (k ++ s) = .ok r := by
  simp only [PRICING, List.mem_cons, List.not_mem_nil, or_false, Prod.mk.injEq] at hk
  rcases hk with ⟨h1, h2⟩ | ⟨h1, h2⟩ | ⟨h1, h2⟩ | ⟨h1, h2⟩ | ⟨h1, h2⟩ | ⟨h1, h2⟩ |
    ⟨h1, h2⟩ | ⟨h1, h2⟩ | ⟨h1, h2⟩ <;> subst h1 <;> subst h2
  · exact resolve_append_version (s2c "gpt-4") (30, 60)
      [s2c "claude-sonnet-3.5", s2c "claude-haiku-3.5", s2c "claude-sonnet-4",
       s2c "gpt-3.5-turbo", s2c "claude-opus-4", s2c "gpt-4-turbo",
       s2c "gpt-4o-mini", s2c "gpt-4o"] []
      rfl (by decide) (by decide) (by decide) (by decide) (by decide) s hs
  · exact resolve_append_version (s2c "gpt-4-turbo") (10, 30)
      [s2c "claude-sonnet-3.5", s2c "claude-haiku-3.5", s2c "claude-sonnet-4",
       s2c "gpt-3.5-turbo", s2c "claude-opus-4"]
      [s2c "gpt-4o-mini", s2c "gpt-4o", s2c "gpt-4"]
      rfl (by decide) (by decide) (by decide) (by decide) (by decide) s hs
  · exact resolve_append_version (s2c "gpt-4o") (5, 15)
      [s2c "claude-sonnet-3.5", s2c "claude-haiku-3.5", s2c "claude-sonnet-4",
       s2c "gpt-3.5-turbo", s2c "claude-opus-4", s2c "gpt-4-turbo",
       s2c "gpt-4o-mini"]
      [s2c "gpt-4"]
      rfl (by decide) (by decide) (by decide) (by decide) (by decide) s hs
  · exact resolve_append_version (s2c "gpt-4o-mini") (0.15, 0.6)
      [s2c "claude-sonnet-3.5", s2c "claude-haiku-3.5", s2c "claude-sonnet-4",
       s2c "gpt-3.5-turbo", s2c "claude-opus-4", s2c "gpt-4-turbo"]
      [s2c "gpt-4o", s2c "gpt-4"]
      rfl (by decide) (by decide) (by decide) (by decide) (by decide) s hs
  · exact resolve_append_version (s2c "gpt-3.5-turbo") (0.5, 1.5)
      [s2c "claude-sonnet-3.5", s2c "claude-haiku-3.5", s2c "claude-sonnet-4"]
      [s2c "claude-opus-4", s2c "gpt-4-turbo", s2c "gpt-4o-mini", s2c "gpt-4o",
       s2c "gpt-4"]
      rfl (by decide) (by decide) (by decide) (by decide) (by decide) s hs
  · exact resolve_append_version (s2c "claude-opus-4") (15, 75)
      [s2c "claude-sonnet-3.5", s2c "claude-haiku-3.5", s2c "claude-sonnet-4",
       s2c "gpt-3.5-turbo"]
      [s2c "gpt-4-turbo", s2c "gpt-4o-mini", s2c "gpt-4o", s2c "gpt-4"]
      rfl (by decide) (by decide) (by decide) (by decide) (by decide) s hs
  · exact resolve_append_version (s2c "claude-sonnet-4") (3, 15)
      [s2c "claude-sonnet-3.5", s2c "claude-haiku-3.5"]
      [s2c "gpt-3.5-turbo", s2c "claude-opus-4", s2c "gpt-4-turbo",
       s2c "gpt-4o-mini", s2c "gpt-4o", s2c "gpt-4"]
      rfl (by decide) (by decide) (by decide) (by decide) (by decide) s hs
  · exact resolve_append_version (s2c "claude-sonnet-3.5") (3, 15)
      []
      [s2c "claude-haiku-3.5", s2c "claude-sonnet-4", s2c "gpt-3.5-turbo",
       s2c "claude-opus-4", s2c "gpt-4-turbo", s2c "gpt-4o-mini", s2c "gpt-4o",
       s2c "gpt-4"]
      rfl (by decide) (by decide) (by decide) (by decide) (by decide) s hs
  · exact resolve_append_version (s2c "claude-haiku-3.5") (0.8, 4)
      [s2c "claude-sonnet-3.5"]
      [s2c "claude-sonnet-4", s2c "gpt-3.5-turbo", s2c "claude-opus-4",
       s2c "gpt-4-turbo", s2c "gpt-4o-mini", s2c "gpt-4o", s2c "gpt-4"]
      rfl (by decide) (by decide) (by decide) (by decide) (by decide) s hs

/-- Witness for C2: the pricing table contains `gpt-4` at `(30, 60)`, and
resolving `gpt-4-0613` (a dated variant) yields exactly those rates. -/
theorem resolve_version_date_suffix_witness :
    (s2c "gpt-4", ((30 : ℚ), (60 : ℚ))) ∈ PRICING ∧
    (s2c "-0613").all isVersionChar = true ∧
    get_model_pricing (s2c "gpt-4" ++ s2c "-0613") = .ok (30, 60) :=
  ⟨List.Mem.head _, by decide,
    resolve_version_date_suffix (s2c "gpt-4") (30, 60) (List.Mem.head _)
      (s2c "-0613") (by decide)⟩

/-- Modelled from the spec: the resolver algorithm exactly as §4.1 words it —
normalize, then exact table match, then alias-prefix match, then the
longest-first fuzzy scan, else `UnsupportedModel`. -/
def specResolve (model : List Char) : Except CostError (ℚ × ℚ) :=
  let n := normalize_model_name model
  match plookup n PRICING with
  | some r => .ok r
  | none =>
    match ALIASES.find? (fun p => isPre p.1 n) with
    | some p =>
      match plookup p.2 PRICING with
      | some r => .ok r
      | none => .error .unsupportedModel
    | none =>
      match keys_by_specificity.find? (fun k => isPre k n || isSub k n) with
      | some k =>
        match plookup k PRICING with
        | some r => .ok r
        | none => .error .unsupportedModel
      | none => .error .unsupportedModel

/-- C1: the pricing resolver follows the fixed precedence (normalize; exact
canonical match; alias-prefix match; fuzzy scan over canonical keys sorted by
descending length, matching by leading segment or substring; otherwise
`UnsupportedModel`), and resolving `gpt-4o-mini` yields `(0.15, 0.6)`. -/
theorem pricing_resolver_precedence :
    (∀ m, get_model_pricing m = specResolve m) ∧
    get_model_pricing (s2c "gpt-4o-mini") = .ok (0.15, 0.6) := by
  constructor
  · intro m
    unfold get_model_pricing specResolve resolve_model_key
    cases h1 : plookup (normalize_model_name m) PRICING with
    | some r => simp [h1]
    | none =>
      simp only [h1, Option.isSome_none, Bool.false_eq_true, if_false]
      cases h2 : ALIASES.find? (fun p => isPre p.1 (normalize_model_name m)) with
      | some p => simp
      | none =>
        cases h3 : keys_by_specificity.find?
            (fun k => isPre k (normalize_model_name m) ||
              isSub k (normalize_model_name m)) with
        | some k => simp
        | none => simp
  · rfl

/-- C3: for non-negative token counts the cost calculator returns exactly
`tokens_in/1_000_000 * input_rate + tokens_out/1_000_000 * output_rate` with
the resolver's rates, applies no rounding, propagates `UnsupportedModel`
unchanged, and `cost("gpt-4-0125-preview", 1000, 500) = 0.06`. -/
theorem calculate_cost_formula (model : List Char) (tin tout : Int) (i o : ℚ) :
    (0 ≤ tin → 0 ≤ tout → get_model_pricing model = .ok (i, o) →
      calculate_cost model tin tout =
        .ok ((tin : ℚ) / 1000000 * i + (tout : ℚ) / 1000000 * o)) ∧
    (0 ≤ tin → 0 ≤ tout → ∀ e, get_model_pricing model = .error e →
      calculate_cost model tin tout = .error e) ∧
    calculate_cost (s2c "gpt-4-0125-preview") 1000 500 = .ok (0.06 : ℚ) := by
  refine ⟨?_, ?_, ?_⟩
  · intro h1 h2 h3
    simp [calculate_cost, Int.not_lt.mpr h1, Int.not_lt.mpr h2, h3]
  · intro h1 h2 e h3
    simp [calculate_cost, Int.not_lt.mpr h1, Int.not_lt.mpr h2, h3]
  · have h : get_model_pricing (s2c "gpt-4-0125-preview") = .ok (30, 60) := rfl
    simp only [calculate_cost, h]
    norm_num

/-- Witness for C3: evaluating the formula branch on `gpt-4o` (rates
`(5, 15)`) at 1000 input and 500 output tokens. -/
theorem calculate_cost_formula_witness :
    (0 : Int) ≤ 1000 ∧ (0 : Int) ≤ 500 ∧
    calculate_cost (s2c "gpt-4o") 1000 500 =
      .ok (((1000 : Int) : ℚ) / 1000000 * 5 + ((500 : Int) : ℚ) / 1000000 * 15) :=
  ⟨by decide, by decide,
    (calculate_cost_formula (s2c "gpt-4o") 1000 500 5 15).1
      (by decide) (by decide) rfl⟩

/-- C4: a negative token count makes the cost calculator fail with
`InvalidTokenCount` no matter the model (the resolver is never consulted),
and a negative token or latency count makes `track_manual` fail with
`InvalidTokenCount` leaving the storage state untouched. -/
theorem negative_counts_rejected (model : List Char) (tin tout lat : Int)
    (st : TrackerState) (u ft : List Char) (meta : Option Meta)
    (org : Option (List Char)) (now : List Char) :
    (tin < 0 ∨ tout < 0 →
      calculate_cost model tin tout = .error .invalidTokenCount) ∧
    (tin < 0 ∨ tout < 0 ∨ lat < 0 →
      track_manual st u ft model tin tout lat meta org now =
        (.error .invalidTokenCount, st)) := by
  constructor
  · intro h
    have hb : (tin < 0 || tout < 0) = true := by
      rcases h with h | h <;> simp [h]
    simp [calculate_cost, hb]
  · intro h
    by_cases hb : (tin < 0 || tout < 0) = true
    · simp [track_manual, hb]
    · have h3 : lat < 0 := by
        simp only [Bool.or_eq_true, decide_eq_true_eq] at hb
        push_neg at hb
        rcases h with h | h | h
        · exact absurd h (Int.not_lt.mpr hb.1)
        · exact absurd h (Int.not_lt.mpr hb.2)
        · exact h
      simp [track_manual, hb, h3]

/-- Witness for C4: an unsupported model with a negative input-token count
still fails with `InvalidTokenCount`, and `track_manual` leaves the state
unchanged. -/
theorem negative_counts_rejected_witness :
    ((-1 : Int) < 0 ∨ (10 : Int) < 0) ∧
    calculate_cost (s2c "not-a-real-model") (-1) 10 =
      .error .invalidTokenCount ∧
    track_manual (init_tracker (s2c "default")) (s2c "alice") (s2c "chat")
      (s2c "not-a-real-model") (-1) 10 0 none none (s2c "t0") =
      (.error .invalidTokenCount, init_tracker (s2c "default")) :=
  ⟨Or.inl (by decide),
    (negative_counts_rejected (s2c "not-a-real-model") (-1) 10 0
      (init_tracker (s2c "default")) (s2c "alice") (s2c "chat") none none
      (s2c "t0")).1 (Or.inl (by decide)),
    (negative_counts_rejected (s2c "not-a-real-model") (-1) 10 0
      (init_tracker (s2c "default")) (s2c "alice") (s2c "chat") none none
      (s2c "t0")).2 (Or.inl (by decide))⟩

/-- A concrete record used by several witnesses. -/
def sampleLog : CostLog :=
  { user_id := s2c "alice", feature := s2c "chat", model := s2c "gpt-4o",
    tokens_in := 1000, tokens_out := 500, cost_usd := 3, latency_ms := 12,
    timestamp := s2c "2025-01-01T00:00:00+00:00", org_id := s2c "org-1",
    metadata := [] }

/-- C8: schema creation is idempotent — applying it twice equals applying it
once, and on an already-ready store (whatever rows it holds) it changes
nothing. -/
theorem init_db_idempotent (s : DBState) :
    init_db (init_db s) = init_db s ∧ (s.ready = true → init_db s = s) := by
  constructor
  · by_cases h : s.ready = true
    · simp [init_db, h]
    · simp [init_db, h]
  · intro h
    simp [init_db, h]

/-- Witness for C8: re-initializing a ready store holding one row leaves it
unchanged. -/
theorem init_db_idempotent_witness :
    ({ ready := true, nextId := 2, rows := [⟨1, sampleLog⟩] } : DBState).ready
        = true ∧
    init_db { ready := true, nextId := 2, rows := [⟨1, sampleLog⟩] } =
      { ready := true, nextId := 2, rows := [⟨1, sampleLog⟩] } :=
  ⟨rfl, (init_db_idempotent _).2 rfl⟩

theorem runOps_rows_append (ops : List StorageOp) :
    ∀ s : DBState, ∃ t, (runOps s ops).rows = s.rows ++ t := by
  induction ops with
  | nil => exact fun s => ⟨[], by simp [runOps]⟩
  | cons op ops ih =>
    intro s
    obtain ⟨t, ht⟩ := ih (applyOp s op)
    cases op with
    | append e =>
      refine ⟨⟨s.nextId, e⟩ :: t, ?_⟩
      have hst : runOps s (StorageOp.append e :: ops) =
          runOps (applyOp s (.append e)) ops := rfl
      rw [hst, ht]
      simp [applyOp, SQLiteStorage.log]
    | readTotal f => exact ⟨t, ht⟩
    | readTopUsers l f => exact ⟨t, ht⟩
    | readTopFeatures l f => exact ⟨t, ht⟩

/-- C9: the storage engine is append-only — any operation sequence only
extends the row list (so every persisted row keeps the value it had when
first written), `log` appends exactly one row, and the three aggregate reads
leave the state untouched. -/
theorem storage_records_immutable (ops : List StorageOp) (s : DBState) :
    (∃ t, (runOps s ops).rows = s.rows ++ t) ∧
    (∀ i, i < s.rows.length → (runOps s ops).rows[i]? = s.rows[i]?) ∧
    (∀ e, (SQLiteStorage.log s e).rows = s.rows ++ [⟨s.nextId, e⟩]) ∧
    (∀ f, applyOp s (.readTotal f) = s) ∧
    (∀ l f, applyOp s (.readTopUsers l f) = s) ∧
    (∀ l f, applyOp s (.readTopFeatures l f) = s) := by
  obtain ⟨t, ht⟩ := runOps_rows_append ops s
  refine ⟨⟨t, ht⟩, ?_, fun e => rfl, fun f => rfl, fun l f => rfl,
    fun l f => rfl⟩
  intro i hi
  rw [ht]
  exact List.getElem?_append_left hi

/-- Witness for C9: after appending a second record, the first persisted row
is still read back unchanged. -/
theorem storage_records_immutable_witness :
    0 < ({ ready := true, nextId := 2, rows := [⟨1, sampleLog⟩] } : DBState).rows.length ∧
    (runOps { ready := true, nextId := 2, rows := [⟨1, sampleLog⟩] }
        [.append sampleLog]).rows[0]? =
      ({ ready := true, nextId := 2, rows := [⟨1, sampleLog⟩] } : DBState).rows[0]? :=
  ⟨by decide,
    (storage_records_immutable [.append sampleLog]
      { ready := true, nextId := 2, rows := [⟨1, sampleLog⟩] }).2.1 0
      (by decide)⟩

theorem pyOrStr_ne_nil {v : Option (List Char)} {d : List Char} (hd : d ≠ []) :
    pyOrStr v d ≠ [] := by
  cases v with
  | none => exact hd
  | some s =>
    cases s with
    | nil => simpa [pyOrStr] using hd
    | cons a l => simp [pyOrStr]

/-- C10: on the manual-entry path a falsy `org_id` (absent or empty string)
is replaced by the configured default and a falsy `metadata` by the empty
mapping, the persisted record's other fields equal the supplied arguments
with `cost_usd` from the cost calculator, and (whenever the configured
default is itself non-empty) no record written through this path carries an
empty `org_id`. -/
theorem track_manual_fields (st : TrackerState) (u ft m : List Char)
    (tin tout lat : Int) (meta : Option Meta) (org : Option (List Char))
    (now : List Char) (c : ℚ)
    (hc : calculate_cost m tin tout = .ok c) (hlat : 0 ≤ lat) :
    ∃ entry : CostLog,
      track_manual st u ft m tin tout lat meta org now =
        (.ok entry, { st with db := SQLiteStorage.log st.db entry }) ∧
      entry.user_id = u ∧ entry.feature = ft ∧ entry.model = m ∧
      entry.tokens_in = tin ∧ entry.tokens_out = tout ∧ entry.cost_usd = c ∧
      entry.latency_ms = lat ∧ entry.timestamp = now ∧
      entry.org_id = pyOrStr org st.org_id ∧
      entry.metadata = pyOrMeta meta [] ∧
      (org = none ∨ org = some [] → entry.org_id = st.org_id) ∧
      (meta = none ∨ meta = some [] → entry.metadata = []) ∧
      (st.org_id ≠ [] → entry.org_id ≠ []) := by
  have hb : (tin < 0 || tout < 0) = false := by
    cases hh : (tin < 0 || tout < 0) with
    | false => rfl
    | true => simp [calculate_cost, hh] at hc
  refine ⟨{ user_id := u, feature := ft, model := m, tokens_in := tin,
            tokens_out := tout, cost_usd := c, latency_ms := lat,
            timestamp := now, org_id := pyOrStr org st.org_id,
            metadata := pyOrMeta meta [] },
    ?_, rfl, rfl, rfl, rfl, rfl, rfl, rfl, rfl, rfl, rfl, ?_, ?_, ?_⟩
  · simp [track_manual, hb, Int.not_lt.mpr hlat, hc]
  · rintro (rfl | rfl)
    · rfl
    · simp [pyOrStr]
  · rintro (rfl | rfl)
    · rfl
    · simp [pyOrMeta, List.isEmpty]
  · intro hne
    exact pyOrStr_ne_nil hne

/-- Witness for C10: an explicit empty-string `org_id` is replaced by the
configured default `org-main`, and absent metadata becomes the empty
mapping. -/
theorem track_manual_fields_witness :
    ∃ entry : CostLog,
      track_manual (init_tracker (s2c "org-main")) (s2c "alice") (s2c "chat")
          (s2c "gpt-4o") 1000 500 12 none (some []) (s2c "t0") =
        (.ok entry,
          { init_tracker (s2c "org-main") with
            db := SQLiteStorage.log (init_tracker (s2c "org-main")).db entry }) ∧
      entry.user_id = s2c "alice" ∧ entry.feature = s2c "chat" ∧
      entry.model = s2c "gpt-4o" ∧ entry.tokens_in = 1000 ∧
      entry.tokens_out = 500 ∧
      entry.cost_usd =
        ((1000 : Int) : ℚ) / 1000000 * 5 + ((500 : Int) : ℚ) / 1000000 * 15 ∧
      entry.latency_ms = 12 ∧ entry.timestamp = s2c "t0" ∧
      entry.org_id = pyOrStr (some []) (init_tracker (s2c "org-main")).org_id ∧
      entry.metadata = pyOrMeta none [] ∧
      ((some [] : Option (List Char)) = none ∨
          (some [] : Option (List Char)) = some [] →
        entry.org_id = (init_tracker (s2c "org-main")).org_id) ∧
      ((none : Option Meta) = none ∨ (none : Option Meta) = some [] →
        entry.metadata = []) ∧
      ((init_tracker (s2c "org-main")).org_id ≠ [] → entry.org_id ≠ []) := by
  exact track_manual_fields (init_tracker (s2c "org-main")) (s2c "alice")
    (s2c "chat") (s2c "gpt-4o") 1000 500 12 none (some []) (s2c "t0")
    (((1000 : Int) : ℚ) / 1000000 * 5 + ((500 : Int) : ℚ) / 1000000 * 15)
    rfl (by decide)

/-! ### C5: total cost sums appended records -/

/-- A second concrete record used by witnesses. -/
def sampleLog2 : CostLog :=
  { sampleLog with user_id := s2c "bob", feature := s2c "summary",
                   cost_usd := 1 }

/-- Sum of the `cost_usd` fields of a list of records. -/
def sumCosts (es : List CostLog) : ℚ :=
  es.foldr (fun e acc => e.cost_usd + acc) 0

theorem sumCost_append_single (l : List Row) (r : Row) :
    sumCost (l ++ [r]) = sumCost l + r.entry.cost_usd := by
  induction l with
  | nil => simp [sumCost]
  | cons a l ih =>
    show a.entry.cost_usd + sumCost (l ++ [r]) =
      a.entry.cost_usd + sumCost l + r.entry.cost_usd
    rw [ih, add_assoc]

theorem rowMatches_noFilters (r : Row) : rowMatches {} r = true := rfl

theorem matchingRows_log_noFilters (s : DBState) (e : CostLog) :
    matchingRows (SQLiteStorage.log s e) {} =
      matchingRows s {} ++ [⟨s.nextId, e⟩] := by
  unfold matchingRows SQLiteStorage.log
  simp [List.filter_append, rowMatches_noFilters]

theorem total_runAppends (es : List CostLog) :
    ∀ s : DBState,
      SQLiteStorage.get_total_cost (runOps s (es.map .append)) {} =
        SQLiteStorage.get_total_cost s {} + sumCosts es := by
  induction es with
  | nil => intro s; simp [runOps, sumCosts]
  | cons e es ih =>
    intro s
    have h1 : runOps s ((e :: es).map .append) =
        runOps (SQLiteStorage.log s e) (es.map .append) := rfl
    rw [h1, ih]
    have h2 : SQLiteStorage.get_total_cost (SQLiteStorage.log s e) {} =
        SQLiteStorage.get_total_cost s {} + e.cost_usd := by
      unfold SQLiteStorage.get_total_cost
      rw [matchingRows_log_noFilters, sumCost_append_single]
    rw [h2]
    show _ + e.cost_usd + sumCosts es = _ + (e.cost_usd + sumCosts es)
    rw [add_assoc]

/-- C5: starting from an empty store, `get_total_cost` with no filters equals
the sum of the appended records' `cost_usd` (exactly, in the rational model),
and when no rows match the filters it returns 0 instead of failing. -/
theorem total_cost_is_sum (logs : List CostLog) (st : DBState) (f : Filters) :
    SQLiteStorage.get_total_cost
        (runOps (init_db { ready := false, nextId := 0, rows := [] })
          (logs.map .append)) {} = sumCosts logs ∧
    (matchingRows st f = [] → SQLiteStorage.get_total_cost st f = 0) := by
  constructor
  · rw [total_runAppends]
    have h0 : SQLiteStorage.get_total_cost
        (init_db { ready := false, nextId := 0, rows := [] }) {} = 0 := rfl
    rw [h0, zero_add]
  · intro h
    unfold SQLiteStorage.get_total_cost
    rw [h]
    rfl

/-- Witness for C5: two appended records sum up, and a filter matching
nothing yields total 0. -/
theorem total_cost_is_sum_witness :
    SQLiteStorage.get_total_cost
        (runOps (init_db { ready := false, nextId := 0, rows := [] })
          ([sampleLog, sampleLog2].map .append)) {} =
      sumCosts [sampleLog, sampleLog2] ∧
    matchingRows (init_db { ready := false, nextId := 0, rows := [] })
        { user_id := some (s2c "nobody") } = [] ∧
    SQLiteStorage.get_total_cost
        (init_db { ready := false, nextId := 0, rows := [] })
        { user_id := some (s2c "nobody") } = 0 :=
  ⟨(total_cost_is_sum [sampleLog, sampleLog2]
      (init_db { ready := false, nextId := 0, rows := [] })
      { user_id := some (s2c "nobody") }).1,
    rfl,
    (total_cost_is_sum [] (init_db { ready := false, nextId := 0, rows := [] })
      { user_id := some (s2c "nobody") }).2 rfl⟩

/-! ### C7: filters act as a pure conjunction -/

/-- Modelled from the spec: filter semantics of §4.3 — an optional
conjunction of independent predicates, exact equality on `user_id`,
`feature`, `org_id`, `model` and inclusive `start_time`/`end_time` bounds on
the timestamp, each applied only when supplied. -/
def specMatches (f : Filters) (r : Row) : Bool :=
  (match f.user_id with
   | none => true
   | some v => decide (r.entry.user_id = v)) &&
  (match f.feature with
   | none => true
   | some v => decide (r.entry.feature = v)) &&
  (match f.org_id with
   | none => true
   | some v => decide (r.entry.org_id = v)) &&
  (match f.model with
   | none => true
   | some v => decide (r.entry.model = v)) &&
  (match f.start_time with
   | none => true
   | some v => leChars v r.entry.timestamp) &&
  (match f.end_time with
   | none => true
   | some v => leChars r.entry.timestamp v)

theorem optClause_all (v : Option (List Char)) (pred : List Char → Row → Bool)
    (r : Row) :
    (optClause v pred).all (fun c => c r) =
      match v with
      | none => true
      | some x => pred x r := by
  cases v <;> simp [optClause]

theorem rowMatches_eq_specMatches (f : Filters) (r : Row) :
    rowMatches f r = specMatches f r := by
  unfold rowMatches build_where_clause specMatches
  simp only [List.all_append, optClause_all, Bool.and_assoc]

theorem rowMatches_org {f : Filters} {v : List Char} (hf : f.org_id = some v)
    {r : Row} (h : rowMatches f r = true) : r.entry.org_id = v := by
  rw [rowMatches_eq_specMatches] at h
  unfold specMatches at h
  rw [hf] at h
  simp only [Bool.and_eq_true, decide_eq_true_eq] at h
  exact h.1.1.1.2

theorem filter_filter_of_imp {α : Type} (p q : α → Bool) (l : List α)
    (h : ∀ a, p a = true → q a = true) :
    (l.filter q).filter p = l.filter p := by
  induction l with
  | nil => rfl
  | cons a l ih =>
    by_cases hp : p a = true
    · have hq := h a hp
      simp [List.filter_cons, hp, hq, ih]
    · by_cases hq : q a = true
      · simp [List.filter_cons, hp, hq, ih]
      · simp [List.filter_cons, hp, hq, ih]

/-- The store restricted to the rows of one organization. -/
def orgOnly (st : DBState) (v : List Char) : DBState :=
  { st with rows := st.rows.filter (fun r => decide (r.entry.org_id = v)) }

theorem matchingRows_orgOnly {f : Filters} {v : List Char}
    (hf : f.org_id = some v) (st : DBState) :
    matchingRows (orgOnly st v) f = matchingRows st f := by
  unfold matchingRows orgOnly
  exact filter_filter_of_imp _ _ _ (fun r hr => by
    simpa using rowMatches_org hf hr)

/-- C7: the filters are a pure conjunction of the supplied predicates (the
code-generated `WHERE` clause equals the spec's conjunction), no filters
matches every row, and restricting the store to one `org_id` leaves all
three aggregate queries unchanged whenever that `org_id` filter is
supplied — i.e. rows of any other organization are excluded. -/
theorem filters_are_conjunction (f : Filters) (r : Row) (st : DBState)
    (lim : Nat) (v : List Char) :
    rowMatches f r = specMatches f r ∧
    rowMatches {} r = true ∧
    (f.org_id = some v →
      SQLiteStorage.get_total_cost st f =
        SQLiteStorage.get_total_cost (orgOnly st v) f ∧
      SQLiteStorage.get_top_users st lim f =
        SQLiteStorage.get_top_users (orgOnly st v) lim f ∧
      SQLiteStorage.get_top_features st lim f =
        SQLiteStorage.get_top_features (orgOnly st v) lim f) := by
  refine ⟨rowMatches_eq_specMatches f r, rfl, fun hf => ⟨?_, ?_, ?_⟩⟩
  · unfold SQLiteStorage.get_total_cost
    rw [matchingRows_orgOnly hf]
  · unfold SQLiteStorage.get_top_users topBy
    rw [matchingRows_orgOnly hf]
  · unfold SQLiteStorage.get_top_features topBy
    rw [matchingRows_orgOnly hf]

/-- Witness for C7: with an `org-1` filter the three aggregates over a store
holding an `org-1` row and an `org-2` row agree with the aggregates over the
store restricted to `org-1`. -/
theorem filters_are_conjunction_witness :
    rowMatches { org_id := some (s2c "org-1") } ⟨1, sampleLog⟩ =
      specMatches { org_id := some (s2c "org-1") } ⟨1, sampleLog⟩ ∧
    rowMatches {} ⟨1, sampleLog⟩ = true ∧
    (SQLiteStorage.get_total_cost
        { ready := true, nextId := 3,
          rows := [⟨1, sampleLog⟩, ⟨2, { sampleLog2 with org_id := s2c "org-2" }⟩] }
        { org_id := some (s2c "org-1") } =
      SQLiteStorage.get_total_cost
        (orgOnly
          { ready := true, nextId := 3,
            rows := [⟨1, sampleLog⟩, ⟨2, { sampleLog2 with org_id := s2c "org-2" }⟩] }
          (s2c "org-1"))
        { org_id := some (s2c "org-1") } ∧
      SQLiteStorage.get_top_users
        { ready := true, nextId := 3,
          rows := [⟨1, sampleLog⟩, ⟨2, { sampleLog2 with org_id := s2c "org-2" }⟩] }
        5 { org_id := some (s2c "org-1") } =
      SQLiteStorage.get_top_users
        (orgOnly
          { ready := true, nextId := 3,
            rows := [⟨1, sampleLog⟩, ⟨2, { sampleLog2 with org_id := s2c "org-2" }⟩] }
          (s2c "org-1"))
        5 { org_id := some (s2c "org-1") } ∧
      SQLiteStorage.get_top_features
        { ready := true, nextId := 3,
          rows := [⟨1, sampleLog⟩, ⟨2, { sampleLog2 with org_id := s2c "org-2" }⟩] }
        5 { org_id := some (s2c "org-1") } =
      SQLiteStorage.get_top_features
        (orgOnly
          { ready := true, nextId := 3,
            rows := [⟨1, sampleLog⟩, ⟨2, { sampleLog2 with org_id := s2c "org-2" }⟩] }
          (s2c "org-1"))
        5 { org_id := some (s2c "org-1") }) := by
  have h := filters_are_conjunction { org_id := some (s2c "org-1") }
    ⟨1, sampleLog⟩
    { ready := true, nextId := 3,
      rows := [⟨1, sampleLog⟩, ⟨2, { sampleLog2 with org_id := s2c "org-2" }⟩] }
    5 (s2c "org-1")
  exact ⟨h.1, h.2.1, h.2.2 rfl⟩

/-! ### C6: top-user / top-feature queries -/

theorem topBy_pairwise (proj : CostLog → List Char) (st : DBState) (lim : Nat)
    (f : Filters) :
    (topBy proj st lim f).Pairwise
      (fun a b : List Char × ℚ × Nat => b.2.1 ≤ a.2.1) := by
  haveI : IsTotal (List Char × ℚ × Nat)
      (fun a b : List Char × ℚ × Nat => b.2.1 ≤ a.2.1) :=
    ⟨fun a b => le_total b.2.1 a.2.1⟩
  haveI : IsTrans (List Char × ℚ × Nat)
      (fun a b : List Char × ℚ × Nat => b.2.1 ≤ a.2.1) :=
    ⟨fun a b c h1 h2 => le_trans h2 h1⟩
  have hs := List.sorted_insertionSort
    (fun a b : List Char × ℚ × Nat => b.2.1 ≤ a.2.1)
    (groupRows proj (matchingRows st f))
  unfold topBy
  exact List.Pairwise.sublist (List.take_sublist _ _) hs

theorem topBy_length (proj : CostLog → List Char) (st : DBState) (lim : Nat)
    (f : Filters) : (topBy proj st lim f).length ≤ lim := by
  unfold topBy
  rw [List.length_take]
  exact min_le_left _ _

theorem topBy_mem (proj : CostLog → List Char) {st : DBState} {lim : Nat}
    {f : Filters} {x : List Char × ℚ × Nat} (hx : x ∈ topBy proj st lim f) :
    x.2.1 =
      sumCost ((matchingRows st f).filter
        (fun r => decide (proj r.entry = x.1))) ∧
    x.2.2 =
      ((matchingRows st f).filter
        (fun r => decide (proj r.entry = x.1))).length := by
  unfold topBy at hx
  have hx2 := List.mem_of_mem_take hx
  rw [List.mem_insertionSort] at hx2
  unfold groupRows at hx2
  obtain ⟨k, hk, rfl⟩ := List.mem_map.mp hx2
  exact ⟨rfl, rfl⟩

/-- C6: `get_top_users` returns at most `limit` groups ordered non-increasingly
by summed cost, each carrying the exact cost sum and row count of its
`user_id` among the matching rows; `get_top_features` satisfies the same with
grouping by `feature`. -/
theorem top_queries_correct (st : DBState) (lim : Nat) (f : Filters) :
    ((SQLiteStorage.get_top_users st lim f).Pairwise
        (fun a b : List Char × ℚ × Nat => b.2.1 ≤ a.2.1) ∧
      (SQLiteStorage.get_top_users st lim f).length ≤ lim ∧
      ∀ x ∈ SQLiteStorage.get_top_users st lim f,
        x.2.1 = sumCost ((matchingRows st f).filter
          (fun r => decide (r.entry.user_id = x.1))) ∧
        x.2.2 = ((matchingRows st f).filter
          (fun r => decide (r.entry.user_id = x.1))).length) ∧
    ((SQLiteStorage.get_top_features st lim f).Pairwise
        (fun a b : List Char × ℚ × Nat => b.2.1 ≤ a.2.1) ∧
      (SQLiteStorage.get_top_features st lim f).length ≤ lim ∧
      ∀ x ∈ SQLiteStorage.get_top_features st lim f,
        x.2.1 = sumCost ((matchingRows st f).filter
          (fun r => decide (r.entry.feature = x.1))) ∧
        x.2.2 = ((matchingRows st f).filter
          (fun r => decide (r.entry.feature = x.1))).length) :=
  ⟨⟨topBy_pairwise _ st lim f, topBy_length _ st lim f,
      fun _ hx => topBy_mem _ hx⟩,
    ⟨topBy_pairwise _ st lim f, topBy_length _ st lim f,
      fun _ hx => topBy_mem _ hx⟩⟩

/-- A ready store holding exactly one row, used by the C6 witness. -/
def oneRowDB : DBState := { ready := true, nextId := 2, rows := [⟨1, sampleLog⟩] }

/-- Witness for C6: on a one-row store, the single returned group of
`get_top_users` (and of `get_top_features`) carries the exact sum and count. -/
theorem top_queries_correct_witness :
    (SQLiteStorage.get_top_users oneRowDB 10 {}).length ≤ 10 ∧
    ((s2c "alice",
        sumCost ((matchingRows oneRowDB {}).filter
          (fun r => decide (r.entry.user_id = s2c "alice"))),
        ((matchingRows oneRowDB {}).filter
          (fun r => decide (r.entry.user_id = s2c "alice"))).length).2.1 =
      sumCost ((matchingRows oneRowDB {}).filter
        (fun r => decide (r.entry.user_id = s2c "alice")))) ∧
    ((s2c "chat",
        sumCost ((matchingRows oneRowDB {}).filter
          (fun r => decide (r.entry.feature = s2c "chat"))),
        ((matchingRows oneRowDB {}).filter
          (fun r => decide (r.entry.feature = s2c "chat"))).length).2.1 =
      sumCost ((matchingRows oneRowDB {}).filter
        (fun r => decide (r.entry.feature = s2c "chat")))) :=
  ⟨(top_queries_correct oneRowDB 10 {}).1.2.1,
    ((top_queries_correct oneRowDB 10 {}).1.2.2 _ (List.Mem.head _)).1,
    ((top_queries_correct oneRowDB 10 {}).2.2.2 _ (List.Mem.head _)).1⟩
